import Mathlib

/-!
Shallow embedding of `src/blackjack.py` (a single-player blackjack game)
and proofs about its game logic: hand valuation with the soft-ace rule,
the player decision loop, the dealer drawing policy, round resolution,
the surrender path of the session loop, and the saved-state loader.

Conventions of the embedding:
* A card is a pair of rank and suit, mirroring the `(rank, suit)` tuples
  of the source; `get_hand_value` only inspects the rank.
* The Python code draws with `deck.pop()`, taking cards from the end of
  its list.  Here a deck is a `List Card` written in draw order, so a
  draw takes the head; this is the same sequence of cards, read from the
  drawing end.
* Interactive input is modelled by a list of parsed moves; running out
  of input (EOF) or drawing from an empty deck (an `IndexError` in the
  source) yields `none`.
* Machine integers do not overflow here: Python integers are unbounded,
  so the bankroll is an `Int` and card totals are `Nat`.
-/

namespace Blackjack

/-- Card ranks as they appear in the source deck: the numeric strings
`'2'`..`'10'` (kept as their numeric value), and `'J'`, `'Q'`, `'K'`, `'A'`. -/
inductive Rank where
  | num (n : Nat)
  | jack
  | queen
  | king
  | ace
deriving DecidableEq, Repr

/-- The four suit glyphs of the source. -/
inductive Suit where
  | hearts
  | diamonds
  | spades
  | clubs
deriving DecidableEq, Repr

/-- A card `(rank, suit)` as in the source's tuples. -/
abbrev Card := Rank × Suit

/-- The three outcome counters of the `stats` dictionary. -/
structure Stats where
  wins : Nat
  losses : Nat
  pushes : Nat
deriving DecidableEq, Repr

/-- One step of the accumulation loop of `get_hand_value` (lines 105-112):
the accumulator is `(value, aces)`; an ace bumps `aces`, a face card adds
10 to `value`, a numeric card adds its face value. -/
def countStep (acc : Nat × Nat) (c : Card) : Nat × Nat :=
  match c.1 with
  | .ace => (acc.1, acc.2 + 1)
  | .jack => (acc.1 + 10, acc.2)
  | .queen => (acc.1 + 10, acc.2)
  | .king => (acc.1 + 10, acc.2)
  | .num n => (acc.1 + n, acc.2)

/-- The ace-promotion loop of `get_hand_value` (lines 114-116):
`for _ in range(aces): if value + 10 <= 21: value += 10`. -/
def promote : Nat → Nat → Nat
  | 0, v => v
  | n + 1, v => promote n (if v + 10 ≤ 21 then v + 10 else v)

/-- `get_hand_value` (lines 102-117): accumulate non-ace points and the
ace count, add 1 per ace (`value += aces`), then run the promotion loop. -/
def get_hand_value (hand : List Card) : Nat :=
  let p := hand.foldl countStep (0, 0)
  promote p.2 (p.1 + p.2)

/-- Points contributed by a card when every ace is counted low as 0 here
(the ace's 1 is accounted separately by `aceCount`). -/
def nonAcePoints (c : Card) : Nat :=
  match c.1 with
  | .ace => 0
  | .jack => 10
  | .queen => 10
  | .king => 10
  | .num n => n

/-- Whether a card is an ace. -/
def isAceCard (c : Card) : Bool :=
  match c.1 with
  | .ace => true
  | _ => false

/-- Number of aces in a hand. -/
def aceCount (hand : List Card) : Nat := hand.countP isAceCard

/-- The all-aces-low total: every non-ace at its value, every ace as 1. -/
def lowTotal (hand : List Card) : Nat :=
  (hand.map nonAcePoints).sum + aceCount hand

/-- Step 3 of the spec's hand-evaluation algorithm, taken at its word:
promote aces one at a time, adding 10 while the total stays ≤ 21, and
stop at the first unsafe promotion or when all aces are promoted. -/
def specPromote : Nat → Nat → Nat
  | 0, v => v
  | n + 1, v => if v + 10 ≤ 21 then specPromote n (v + 10) else v

/-- The spec's hand value (§4.2, steps 1-3), for comparison with the
source's `get_hand_value`. -/
def specSoftValue (hand : List Card) : Nat :=
  specPromote (aceCount hand) (lowTotal hand)

lemma foldl_countStep (hand : List Card) :
    ∀ v a, hand.foldl countStep (v, a) =
      (v + (hand.map nonAcePoints).sum, a + aceCount hand) := by
  induction hand with
  | nil => intro v a; simp [aceCount]
  | cons c t ih =>
    intro v a
    obtain ⟨r, s⟩ := c
    cases r <;>
      simp [countStep, nonAcePoints, aceCount, isAceCard, List.countP_cons, ih] <;>
      omega

lemma get_hand_value_eq (hand : List Card) :
    get_hand_value hand = promote (aceCount hand) (lowTotal hand) := by
  simp only [get_hand_value]
  rw [foldl_countStep hand 0 0]
  simp [lowTotal]

lemma promote_stuck (n v : Nat) (h : 21 < v + 10) : promote n v = v := by
  induction n with
  | zero => rfl
  | succ n ih =>
    have : ¬ (v + 10 ≤ 21) := by omega
    simp [promote, this, ih]

lemma promote_eq_specPromote (n : Nat) : ∀ v, promote n v = specPromote n v := by
  induction n with
  | zero => intro v; rfl
  | succ n ih =>
    intro v
    by_cases h : v + 10 ≤ 21
    · simp [promote, specPromote, h, ih]
    · simp [promote, specPromote, h, promote_stuck n v (by omega)]

lemma promote_characterization (n : Nat) :
    ∀ v, n ≤ v →
      promote n v = if 1 ≤ n ∧ v + 10 ≤ 21 then v + 10 else v := by
  induction n with
  | zero => intro v _; simp [promote]
  | succ n ih =>
    intro v hnv
    by_cases h : v + 10 ≤ 21
    · have h1 : 1 ≤ n + 1 ∧ v + 10 ≤ 21 := ⟨by omega, h⟩
      simp only [promote, if_pos h, if_pos h1]
      cases n with
      | zero => rfl
      | succ m => exact promote_stuck _ _ (by omega)
    · have h1 : ¬ (1 ≤ n + 1 ∧ v + 10 ≤ 21) := by omega
      simp only [promote, if_neg h, if_neg h1]
      exact promote_stuck _ _ (by omega)

lemma aceCount_le_lowTotal (hand : List Card) : aceCount hand ≤ lowTotal hand :=
  Nat.le_add_left _ _

/-- A parsed player command: the recognized tokens `'H'`, `'S'`, `'D'`,
`'SU'` of `player_turn`, and `invalid` for any other input line. -/
inductive Move where
  | hit
  | stand
  | double
  | surrender
  | invalid
deriving DecidableEq, Repr

/-- The values `player_turn` leaves behind: the returned `(bet, surrendered)`
pair plus the final contents of the mutated `player` hand and `deck`. -/
structure PTResult where
  bet : Nat
  surrendered : Bool
  player : List Card
  deck : List Card
deriving DecidableEq, Repr

/-- The `while True` loop of `player_turn` (lines 135-153), with the input
stream made explicit.  `none` models running out of input (EOF) or popping
an empty deck.  `'H'` draws, ends the phase on a bust; `'S'` ends the
phase; `'D'` doubles the bet and draws once, but only when the `can_double`
flag (fixed at phase entry) is set — otherwise the token falls through and
the player is re-prompted; `'SU'` returns with `surrendered = true`;
anything else re-prompts. -/
def player_turnLoop (can_double : Bool) :
    List Card → List Card → Nat → List Move → Option PTResult
  | _, _, _, [] => none
  | player, deck, bet, m :: ms =>
    match m with
    | .hit =>
      match deck with
      | [] => none
      | c :: rest =>
        if 21 < get_hand_value (player ++ [c]) then
          some ⟨bet, false, player ++ [c], rest⟩
        else
          player_turnLoop can_double (player ++ [c]) rest bet ms
    | .stand => some ⟨bet, false, player, deck⟩
    | .double =>
      if can_double then
        match deck with
        | [] => none
        | c :: rest => some ⟨bet * 2, false, player ++ [c], rest⟩
      else
        player_turnLoop can_double player deck bet ms
    | .surrender => some ⟨bet, true, player, deck⟩
    | .invalid => player_turnLoop can_double player deck bet ms

/-- `player_turn` (lines 131-153): computes
`can_double = len(player) == 2 and money >= 2 * bet` once at entry, then
runs the decision loop.  The `dealer` hand is only displayed, never used. -/
def player_turn (player dealer deck : List Card) (bet : Nat) (money : Int)
    (moves : List Move) : Option PTResult :=
  let can_double := player.length == 2 && decide (2 * (bet : Int) ≤ money)
  let _ := dealer
  player_turnLoop can_double player deck bet moves

/-- The dealer's drawing loop (lines 158-159):
`while get_hand_value(dealer) < 17: dealer.append(deck.pop())`.
Returns the final dealer hand and remaining deck; `none` models popping
an empty deck. -/
def dealerDraw : List Card → List Card → Option (List Card × List Card)
  | dealer, [] =>
    if get_hand_value dealer < 17 then none else some (dealer, [])
  | dealer, c :: rest =>
    if get_hand_value dealer < 17 then dealerDraw (dealer ++ [c]) rest
    else some (dealer, c :: rest)

/-- `dealer_turn` (lines 155-159): if the player already busted the
function returns at once, leaving dealer hand and deck untouched;
otherwise it runs the drawing loop. -/
def dealer_turn (player dealer deck : List Card) :
    Option (List Card × List Card) :=
  if 21 < get_hand_value player then some (dealer, deck)
  else dealerDraw dealer deck

/-- `resolve_game` (lines 161-185): the ordered outcome table.  Returns the
new bankroll together with the updated statistics (the source mutates
`stats` in place). -/
def resolve_game (player dealer : List Card) (bet : Nat) (money : Int)
    (stats : Stats) : Int × Stats :=
  let player_val := get_hand_value player
  let dealer_val := get_hand_value dealer
  if 21 < player_val then
    (money - bet, { stats with losses := stats.losses + 1 })
  else if 21 < dealer_val then
    (money + bet, { stats with wins := stats.wins + 1 })
  else if dealer_val < player_val then
    (money + bet, { stats with wins := stats.wins + 1 })
  else if player_val < dealer_val then
    (money - bet, { stats with losses := stats.losses + 1 })
  else
    (money, { stats with pushes := stats.pushes + 1 })

/-- `stats` with one more recorded win. -/
def Stats.bumpWins (s : Stats) : Stats := { s with wins := s.wins + 1 }

/-- `stats` with one more recorded loss. -/
def Stats.bumpLosses (s : Stats) : Stats := { s with losses := s.losses + 1 }

/-- `stats` with one more recorded push. -/
def Stats.bumpPushes (s : Stats) : Stats := { s with pushes := s.pushes + 1 }

/-- Total number of recorded outcomes. -/
def Stats.total (s : Stats) : Nat := s.wins + s.losses + s.pushes

/-- The spec's §4.4 outcome table, written from its five numbered rules in
their stated order, to be compared with the source's `resolve_game`. -/
def resolveTableSpec (player dealer : List Card) (bet : Nat) (money : Int)
    (stats : Stats) : Int × Stats :=
  if 21 < get_hand_value player then (money - bet, stats.bumpLosses)
  else if 21 < get_hand_value dealer then (money + bet, stats.bumpWins)
  else if get_hand_value dealer < get_hand_value player then
    (money + bet, stats.bumpWins)
  else if get_hand_value player < get_hand_value dealer then
    (money - bet, stats.bumpLosses)
  else (money, stats.bumpPushes)

/-- One iteration of the session loop of `game` (lines 59-76), after the
bet has been read: deal two cards each from the deck, run the player
phase, then either apply the surrender penalty (`money -= final_bet // 2`,
one more loss) or run the dealer phase and the resolver.  Returns the new
bankroll, the updated statistics, and the dealer's final hand (to make the
dealer-frame claims statable); `none` models EOF or an exhausted deck. -/
def gameRound (deck : List Card) (bet : Nat) (money : Int) (stats : Stats)
    (moves : List Move) : Option (Int × Stats × List Card) :=
  match deck with
  | c1 :: c2 :: c3 :: c4 :: rest =>
    let player := [c1, c2]
    let dealer := [c3, c4]
    match player_turn player dealer rest bet money moves with
    | none => none
    | some r =>
      if r.surrendered then
        some (money - ((r.bet / 2 : Nat) : Int),
          { stats with losses := stats.losses + 1 }, dealer)
      else
        match dealer_turn r.player dealer r.deck with
        | none => none
        | some (d, _) =>
          let res := resolve_game r.player d r.bet money stats
          some (res.1, res.2, d)
  | _ => none

/-- The save file as the loader can find it.  `missing` is a failed
`os.path.exists` check; `unparseable` is a file whose contents make
`json.load` raise; `parsed` is a decoded JSON object, each field present
or absent (the source reads each with `data.get(key, default)`). -/
inductive FileState where
  | missing
  | unparseable
  | parsed (money : Option Int) (wins : Option Nat) (losses : Option Nat)
      (pushes : Option Nat)
deriving DecidableEq, Repr

/-- `load_game` (lines 35-44).  A missing file yields the defaults; a
parsed file substitutes a default per absent field.  `json.load` raising
on unparseable contents is not caught anywhere in the source, so that
case is the program failing: `none`. -/
def load_game : FileState → Option (Int × Stats)
  | .missing => some (5000, ⟨0, 0, 0⟩)
  | .unparseable => none
  | .parsed money wins losses pushes =>
    some (money.getD 5000, ⟨wins.getD 0, losses.getD 0, pushes.getD 0⟩)

lemma player_turnLoop_result (cd : Bool) :
    ∀ (ms : List Move) (player deck : List Card) (bet : Nat) (r : PTResult),
      player_turnLoop cd player deck bet ms = some r →
      (r.surrendered = true → r.bet = bet) ∧
      (r.bet = bet ∨ (cd = true ∧ r.bet = bet * 2)) := by
  intro ms
  induction ms with
  | nil => intro player deck bet r h; simp [player_turnLoop] at h
  | cons m ms ih =>
    intro player deck bet r h
    cases m with
    | hit =>
      cases deck with
      | nil => simp [player_turnLoop] at h
      | cons c rest =>
        simp only [player_turnLoop] at h
        by_cases hb : 21 < get_hand_value (player ++ [c])
        · rw [if_pos hb, Option.some_inj] at h
          subst h
          exact ⟨fun _ => rfl, Or.inl rfl⟩
        · rw [if_neg hb] at h
          exact ih _ _ _ _ h
    | stand =>
      simp only [player_turnLoop, Option.some_inj] at h
      subst h
      exact ⟨fun _ => rfl, Or.inl rfl⟩
    | double =>
      simp only [player_turnLoop] at h
      by_cases hc : cd = true
      · rw [if_pos hc] at h
        cases deck with
        | nil => simp at h
        | cons c rest =>
          rw [Option.some_inj] at h
          subst h
          refine ⟨fun hs => by simp at hs, Or.inr ⟨hc, rfl⟩⟩
      · rw [if_neg hc] at h
        exact ih _ _ _ _ h
    | surrender =>
      simp only [player_turnLoop, Option.some_inj] at h
      subst h
      exact ⟨fun _ => rfl, Or.inl rfl⟩
    | invalid =>
      simp only [player_turnLoop] at h
      exact ih _ _ _ _ h

lemma player_turn_bet_cases (player dealer deck : List Card) (bet : Nat)
    (money : Int) (moves : List Move) (r : PTResult)
    (h : player_turn player dealer deck bet money moves = some r) :
    (r.surrendered = true → r.bet = bet) ∧
    (r.bet = bet ∨
      (player.length = 2 ∧ 2 * (bet : Int) ≤ money ∧ r.bet = bet * 2)) := by
  simp only [player_turn] at h
  obtain ⟨hsu, hbet⟩ := player_turnLoop_result _ _ _ _ _ _ h
  refine ⟨hsu, ?_⟩
  rcases hbet with hb | ⟨hcd, hb⟩
  · exact Or.inl hb
  · rw [Bool.and_eq_true, beq_iff_eq, decide_eq_true_eq] at hcd
    exact Or.inr ⟨hcd.1, hcd.2, hb⟩

lemma dealerDraw_spec :
    ∀ (deck dealer d' deck' : List Card),
      dealerDraw dealer deck = some (d', deck') →
      ∃ drawn : List Card,
        d' = dealer ++ drawn ∧
        deck = drawn ++ deck' ∧
        (∀ k < drawn.length, get_hand_value (dealer ++ drawn.take k) < 17) ∧
        17 ≤ get_hand_value d' := by
  intro deck
  induction deck with
  | nil =>
    intro dealer d' deck' h
    simp only [dealerDraw] at h
    by_cases h17 : get_hand_value dealer < 17
    · rw [if_pos h17] at h; simp at h
    · rw [if_neg h17, Option.some_inj, Prod.mk.injEq] at h
      obtain ⟨rfl, rfl⟩ := h
      exact ⟨[], by simp, by simp, by simp, by omega⟩
  | cons c rest ih =>
    intro dealer d' deck' h
    simp only [dealerDraw] at h
    by_cases h17 : get_hand_value dealer < 17
    · rw [if_pos h17] at h
      obtain ⟨drawn', h1, h2, h3, h4⟩ := ih (dealer ++ [c]) d' deck' h
      refine ⟨c :: drawn', ?_, ?_, ?_, h4⟩
      · rw [h1]; simp
      · rw [h2]; rfl
      · intro k hk
        cases k with
        | zero => simpa using h17
        | succ j =>
          have hj := h3 j (by simpa using hk)
          simpa [List.append_assoc] using hj
    · rw [if_neg h17, Option.some_inj, Prod.mk.injEq] at h
      obtain ⟨rfl, rfl⟩ := h
      exact ⟨[], by simp, by simp, by simp, by omega⟩

lemma resolve_game_money_lower (p d : List Card) (bet : Nat) (money : Int)
    (s : Stats) :
    money - bet ≤ (resolve_game p d bet money s).1 := by
  simp only [resolve_game]
  have hb : (0 : Int) ≤ (bet : Int) := Int.natCast_nonneg bet
  split_ifs <;> simp <;> omega

/-- C3: `get_hand_value` computes the standard soft-ace score described by
the spec: sum the non-ace cards, add 1 per ace, then promote aces (adding
10 each) as long as the total stays ≤ 21.  In particular a hand of two
aces is 12, (A, A, 9) is 21, and (10, 10, 5) is 25, a bust. -/
theorem get_hand_value_matches_spec :
    (∀ hand : List Card, get_hand_value hand = specSoftValue hand) ∧
    get_hand_value [(Rank.ace, Suit.hearts), (Rank.ace, Suit.spades)] = 12 ∧
    get_hand_value [(Rank.ace, Suit.hearts), (Rank.ace, Suit.spades),
      (Rank.num 9, Suit.diamonds)] = 21 ∧
    get_hand_value [(Rank.num 10, Suit.hearts), (Rank.num 10, Suit.spades),
      (Rank.num 5, Suit.clubs)] = 25 := by
  refine ⟨fun hand => ?_, by decide, by decide, by decide⟩
  rw [get_hand_value_eq, specSoftValue, promote_eq_specPromote]

/-- C9: the hand value is invariant under any reordering of the hand. -/
theorem get_hand_value_perm_invariant (h1 h2 : List Card) (hp : h1.Perm h2) :
    get_hand_value h1 = get_hand_value h2 := by
  rw [get_hand_value_eq, get_hand_value_eq]
  have hc : aceCount h1 = aceCount h2 := hp.countP_eq isAceCard
  have hs : (h1.map nonAcePoints).sum = (h2.map nonAcePoints).sum :=
    (hp.map nonAcePoints).sum_eq
  rw [lowTotal, lowTotal, hc, hs]

/-- Witness for C9: swapping the two cards of (A, 9) leaves the value. -/
theorem get_hand_value_perm_invariant_witness :
    get_hand_value [(Rank.ace, Suit.hearts), (Rank.num 9, Suit.spades)] =
      get_hand_value [(Rank.num 9, Suit.spades), (Rank.ace, Suit.hearts)] :=
  get_hand_value_perm_invariant _ _ (List.Perm.swap _ _ _)

/-- C10: at most one ace is ever promoted: with `L` the all-aces-low sum,
the evaluator returns `L + 10` exactly when the hand has an ace and
`L + 10 ≤ 21`, and `L` otherwise — a second promotion can never fire. -/
theorem get_hand_value_single_promotion (hand : List Card) :
    get_hand_value hand =
      if 1 ≤ aceCount hand ∧ lowTotal hand + 10 ≤ 21 then lowTotal hand + 10
      else lowTotal hand := by
  rw [get_hand_value_eq]
  exact promote_characterization _ _ (aceCount_le_lowTotal hand)

/-- C2: `resolve_game` implements exactly the spec's ordered, exhaustive,
mutually exclusive outcome table (`resolveTableSpec`), and each resolved
round increments exactly one of the three counters by exactly 1 (the
result's statistics are one of the three single-counter bumps). -/
theorem resolve_game_matches_table (p d : List Card) (bet : Nat)
    (money : Int) (s : Stats) :
    resolve_game p d bet money s = resolveTableSpec p d bet money s ∧
    (resolve_game p d bet money s).2.total = s.total + 1 ∧
    ((resolve_game p d bet money s).2 = s.bumpWins ∨
     (resolve_game p d bet money s).2 = s.bumpLosses ∨
     (resolve_game p d bet money s).2 = s.bumpPushes) := by
  simp only [resolve_game, resolveTableSpec, Stats.bumpWins, Stats.bumpLosses,
    Stats.bumpPushes]
  split_ifs <;> simp [Stats.total] <;> omega

/-- C8: when the player's final hand busts, the dealer phase draws no card
(hand and deck are returned untouched) while resolution still runs its
first row: bankroll − bet and one more loss. -/
theorem player_bust_skips_dealer (player dealer deck : List Card) (bet : Nat)
    (money : Int) (s : Stats) (hb : 21 < get_hand_value player) :
    dealer_turn player dealer deck = some (dealer, deck) ∧
    resolve_game player dealer bet money s = (money - bet, s.bumpLosses) := by
  constructor
  · simp [dealer_turn, hb]
  · simp [resolve_game, hb, Stats.bumpLosses]

/-- Witness for C8: a busted (10, 10, 5) player hand leaves the dealer's
(2, 3) hand and the deck untouched and resolves to a loss. -/
theorem player_bust_skips_dealer_witness :
    dealer_turn
        [(Rank.num 10, Suit.hearts), (Rank.num 10, Suit.spades),
          (Rank.num 5, Suit.clubs)]
        [(Rank.num 2, Suit.hearts), (Rank.num 3, Suit.hearts)]
        [(Rank.num 4, Suit.hearts)] =
      some ([(Rank.num 2, Suit.hearts), (Rank.num 3, Suit.hearts)],
        [(Rank.num 4, Suit.hearts)]) ∧
    resolve_game
        [(Rank.num 10, Suit.hearts), (Rank.num 10, Suit.spades),
          (Rank.num 5, Suit.clubs)]
        [(Rank.num 2, Suit.hearts), (Rank.num 3, Suit.hearts)] 10 100
        ⟨0, 0, 0⟩ =
      ((100 : Int) - (10 : Nat), Stats.bumpLosses ⟨0, 0, 0⟩) :=
  player_bust_skips_dealer _ _ _ _ _ _ (by decide)

/-- C4: when the player has not busted and the dealer phase completes
(`some`), the dealer drew one card at a time exactly while its value was
below 17: every hand held before a draw valued < 17, the final hand
values ≥ 17, and a hand already valued ≥ 17 at entry drew nothing. -/
theorem dealer_turn_policy (player dealer deck d' deck' : List Card)
    (hp : get_hand_value player ≤ 21)
    (hres : dealer_turn player dealer deck = some (d', deck')) :
    ∃ drawn : List Card,
      d' = dealer ++ drawn ∧
      deck = drawn ++ deck' ∧
      (∀ k < drawn.length, get_hand_value (dealer ++ drawn.take k) < 17) ∧
      17 ≤ get_hand_value d' ∧
      (17 ≤ get_hand_value dealer → drawn = []) := by
  have hnb : ¬ 21 < get_hand_value player := by omega
  rw [dealer_turn, if_neg hnb] at hres
  obtain ⟨drawn, h1, h2, h3, h4⟩ := dealerDraw_spec deck dealer d' deck' hres
  refine ⟨drawn, h1, h2, h3, h4, ?_⟩
  intro h17
  cases drawn with
  | nil => rfl
  | cons a l =>
    exfalso
    have h0 := h3 0 (by simp)
    simp at h0
    omega

/-- Witness for C4: a (9, 9) player stands; the dealer's (10, 6) hand draws
exactly one card (a 5, reaching 21 ≥ 17) from the deck [5, 2]. -/
theorem dealer_turn_policy_witness :
    ∃ drawn : List Card,
      [(Rank.num 10, Suit.hearts), (Rank.num 6, Suit.hearts),
          (Rank.num 5, Suit.hearts)] =
        [(Rank.num 10, Suit.hearts), (Rank.num 6, Suit.hearts)] ++ drawn ∧
      [(Rank.num 5, Suit.hearts), (Rank.num 2, Suit.hearts)] =
        drawn ++ [(Rank.num 2, Suit.hearts)] ∧
      (∀ k < drawn.length,
        get_hand_value
          ([(Rank.num 10, Suit.hearts), (Rank.num 6, Suit.hearts)] ++
            drawn.take k) < 17) ∧
      17 ≤ get_hand_value [(Rank.num 10, Suit.hearts),
        (Rank.num 6, Suit.hearts), (Rank.num 5, Suit.hearts)] ∧
      (17 ≤ get_hand_value [(Rank.num 10, Suit.hearts),
          (Rank.num 6, Suit.hearts)] → drawn = []) :=
  dealer_turn_policy
    [(Rank.num 9, Suit.hearts), (Rank.num 9, Suit.spades)]
    [(Rank.num 10, Suit.hearts), (Rank.num 6, Suit.hearts)]
    [(Rank.num 5, Suit.hearts), (Rank.num 2, Suit.hearts)]
    [(Rank.num 10, Suit.hearts), (Rank.num 6, Suit.hearts),
      (Rank.num 5, Suit.hearts)]
    [(Rank.num 2, Suit.hearts)] (by decide) rfl

/-- C5: a surrendered round charges exactly `bet // 2` of the original,
never-doubled bet, records one more loss, and leaves the dealer's hand
exactly as dealt — neither the dealer phase nor the resolver runs. -/
theorem gameRound_surrender (c1 c2 c3 c4 : Card) (rest : List Card)
    (bet : Nat) (money : Int) (s : Stats) (moves : List Move) (r : PTResult)
    (hpt : player_turn [c1, c2] [c3, c4] rest bet money moves = some r)
    (hsu : r.surrendered = true) :
    gameRound (c1 :: c2 :: c3 :: c4 :: rest) bet money s moves =
      some (money - ((bet / 2 : Nat) : Int), s.bumpLosses, [c3, c4]) := by
  have hbet : r.bet = bet := (player_turn_bet_cases _ _ _ _ _ _ _ hpt).1 hsu
  simp only [gameRound]
  rw [hpt]
  simp [hsu, hbet, Stats.bumpLosses]

/-- Witness for C5: bet 5 (odd), bankroll 100, immediate surrender: the
round ends at 100 − 5 // 2 = 98 with one loss and the dealt dealer hand. -/
theorem gameRound_surrender_witness :
    gameRound
        [(Rank.num 2, Suit.hearts), (Rank.num 3, Suit.hearts),
          (Rank.num 4, Suit.hearts), (Rank.num 6, Suit.hearts)]
        5 100 ⟨0, 0, 0⟩ [Move.surrender] =
      some ((100 : Int) - ((5 / 2 : Nat) : Int), Stats.bumpLosses ⟨0, 0, 0⟩,
        [(Rank.num 4, Suit.hearts), (Rank.num 6, Suit.hearts)]) :=
  gameRound_surrender (Rank.num 2, Suit.hearts) (Rank.num 3, Suit.hearts)
    (Rank.num 4, Suit.hearts) (Rank.num 6, Suit.hearts) [] 5 100 ⟨0, 0, 0⟩
    [Move.surrender] ⟨5, true, [(Rank.num 2, Suit.hearts),
      (Rank.num 3, Suit.hearts)], []⟩ rfl rfl

/-- C7: the bankroll stays non-negative across a round: with 1 ≤ bet ≤
bankroll placed, any completed round — surrender penalty or resolution
with the possibly doubled final bet — returns a bankroll ≥ 0. -/
theorem gameRound_bankroll_nonneg (deck : List Card) (bet : Nat)
    (money : Int) (s : Stats) (moves : List Move) (m' : Int) (s' : Stats)
    (d' : List Card) (hb : 1 ≤ bet) (hm : (bet : Int) ≤ money)
    (hres : gameRound deck bet money s moves = some (m', s', d')) :
    0 ≤ m' := by
  rcases deck with _ | ⟨c1, _ | ⟨c2, _ | ⟨c3, _ | ⟨c4, rest⟩⟩⟩⟩
  · simp [gameRound] at hres
  · simp [gameRound] at hres
  · simp [gameRound] at hres
  · simp [gameRound] at hres
  simp only [gameRound] at hres
  cases hpt : player_turn [c1, c2] [c3, c4] rest bet money moves with
  | none => rw [hpt] at hres; simp at hres
  | some r =>
    rw [hpt] at hres
    dsimp only at hres
    obtain ⟨hsurr, hbets⟩ := player_turn_bet_cases _ _ _ _ _ _ _ hpt
    by_cases hsu : r.surrendered = true
    · rw [if_pos hsu] at hres
      simp only [Option.some.injEq, Prod.mk.injEq] at hres
      obtain ⟨rfl, -, -⟩ := hres
      have hhalf : (r.bet / 2 : Nat) ≤ bet := by
        rw [hsurr hsu]; exact Nat.div_le_self _ _
      have : ((r.bet / 2 : Nat) : Int) ≤ (bet : Int) := by exact_mod_cast hhalf
      omega
    · rw [if_neg hsu] at hres
      cases hdt : dealer_turn r.player [c3, c4] r.deck with
      | none => rw [hdt] at hres; simp at hres
      | some pr =>
        obtain ⟨dfin, dkfin⟩ := pr
        rw [hdt] at hres
        dsimp only at hres
        simp only [Option.some.injEq, Prod.mk.injEq] at hres
        obtain ⟨rfl, -, -⟩ := hres
        have hlow := resolve_game_money_lower r.player dfin r.bet money s
        rcases hbets with hb1 | ⟨-, hm2, hb2⟩
        · rw [hb1] at hlow ⊢; omega
        · rw [hb2] at hlow ⊢
          have : ((bet * 2 : Nat) : Int) = 2 * (bet : Int) := by push_cast; ring
          omega

/-- Witness for C7: bet 10 with bankroll exactly 10; the player stands on
(10, 9) against a dealer (10, 9) push, and the bankroll 10 is ≥ 0. -/
theorem gameRound_bankroll_nonneg_witness :
    gameRound
        [(Rank.num 10, Suit.hearts), (Rank.num 9, Suit.hearts),
          (Rank.num 10, Suit.spades), (Rank.num 9, Suit.spades),
          (Rank.num 5, Suit.hearts)]
        10 10 ⟨0, 0, 0⟩ [Move.stand] =
      some (10, ⟨0, 0, 1⟩,
        [(Rank.num 10, Suit.spades), (Rank.num 9, Suit.spades)]) ∧
    (0 : Int) ≤ 10 :=
  ⟨rfl,
    gameRound_bankroll_nonneg
      [(Rank.num 10, Suit.hearts), (Rank.num 9, Suit.hearts),
        (Rank.num 10, Suit.spades), (Rank.num 9, Suit.spades),
        (Rank.num 5, Suit.hearts)]
      10 10 ⟨0, 0, 0⟩ [Move.stand] 10 ⟨0, 0, 1⟩
      [(Rank.num 10, Suit.spades), (Rank.num 9, Suit.spades)]
      (by decide) (by decide) rfl⟩

/-- Counterexample for C1: with a (5, 5) hand, bet 10 and bankroll 100,
the input sequence hit-then-double is accepted although the hand holds
three cards at the double: the bet is doubled to 10 * 2 ≠ 10 and a fourth
card is drawn, because `can_double` was fixed at phase entry. -/
theorem player_turn_double_after_hit :
    player_turn [(Rank.num 5, Suit.hearts), (Rank.num 5, Suit.spades)]
        [(Rank.num 7, Suit.hearts), (Rank.num 8, Suit.hearts)]
        [(Rank.num 2, Suit.hearts), (Rank.num 9, Suit.hearts)] 10 100
        [Move.hit, Move.double] =
      some ⟨10 * 2, false,
        [(Rank.num 5, Suit.hearts), (Rank.num 5, Suit.spades),
          (Rank.num 2, Suit.hearts), (Rank.num 9, Suit.hearts)], []⟩ ∧
    (10 * 2 : Nat) ≠ 10 :=
  ⟨rfl, by decide⟩

/-- C1 (amended): double-down eligibility is decided once, at player-phase
entry: the bet a player phase returns is either the original bet, or its
double and then only when at entry the hand had exactly two cards and
bankroll ≥ 2×bet.  In particular a double with bankroll < 2×bet at entry
is always rejected, but after a hit a double can still be accepted. -/
theorem player_turn_double_entry_eligibility (player dealer deck : List Card)
    (bet : Nat) (money : Int) (moves : List Move) (r : PTResult)
    (hres : player_turn player dealer deck bet money moves = some r) :
    r.bet = bet ∨
      (player.length = 2 ∧ 2 * (bet : Int) ≤ money ∧ r.bet = bet * 2) :=
  (player_turn_bet_cases _ _ _ _ _ _ _ hres).2

/-- Witness for C1 (amended): an immediate stand with bet 10 returns the
unchanged bet 10. -/
theorem player_turn_double_entry_eligibility_witness :
    (⟨10, false, [(Rank.num 5, Suit.hearts), (Rank.num 5, Suit.spades)],
        ([] : List Card)⟩ : PTResult).bet = 10 ∨
      (([(Rank.num 5, Suit.hearts), (Rank.num 5, Suit.spades)] :
          List Card).length = 2 ∧
        2 * ((10 : Nat) : Int) ≤ 100 ∧
        (⟨10, false, [(Rank.num 5, Suit.hearts), (Rank.num 5, Suit.spades)],
          ([] : List Card)⟩ : PTResult).bet = 10 * 2) :=
  player_turn_double_entry_eligibility
    [(Rank.num 5, Suit.hearts), (Rank.num 5, Suit.spades)] [] [] 10 100
    [Move.stand] _ rfl

/-- Counterexample for C6: unparseable save contents make `json.load`
raise with no handler — the load fails (`none`) instead of returning the
defaults; and a parsed record missing only some fields keeps the fields
it has (here wins = 7), instead of resetting all three counters to 0. -/
theorem load_game_failure_not_defaulted :
    load_game FileState.unparseable = none ∧
    load_game (FileState.parsed none (some 7) none none) =
      some (5000, ⟨7, 0, 0⟩) :=
  ⟨rfl, rfl⟩

/-- C6 (amended): a missing save file yields the default bankroll 5000 and
zeroed counters; a parsed record substitutes the default for each absent
field individually (so a record with every field absent also yields the
full defaults); unparseable contents are not caught and fail the load. -/
theorem load_game_fallback :
    load_game FileState.missing = some (5000, ⟨0, 0, 0⟩) ∧
    (∀ m w l p, load_game (FileState.parsed m w l p) =
      some (m.getD 5000, ⟨w.getD 0, l.getD 0, p.getD 0⟩)) ∧
    load_game (FileState.parsed none none none none) =
      some (5000, ⟨0, 0, 0⟩) :=
  ⟨rfl, fun _ _ _ _ => rfl, rfl⟩

end Blackjack
